import Mathlib

/-!
Verification development for `ClipEditor.py`.

The Python source is shallowly embedded: pure string manipulation is
modelled on `List Char` (so every definition is executable and
kernel-reducible), the filesystem is a list of existing file paths, and
the calls the driver makes against the external media engine are recorded
as an explicit event trace.
-/

set_option maxRecDepth 4096

deriving instance DecidableEq for Except

/-- Embeds Python `s.split(c)` for a single-character separator `c`
(as used in `_convert_to_hms`: `time_str.split(':')`): splits on every
occurrence, keeping empty fields. -/
def splitOnChar : List Char → Char → List (List Char)
  | [], _ => [[]]
  | x :: xs, c =>
    let r := splitOnChar xs c
    if x = c then [] :: r
    else
      match r with
      | h :: t => (x :: h) :: t
      | [] => [[x]]

/-- One digit of Python `int(s)`: extend the accumulated value, or fail
on a non-digit. -/
def pyintStep (acc : Option Nat) (c : Char) : Option Nat :=
  match acc with
  | some n => if c.isDigit then some (n * 10 + (c.toNat - 48)) else none
  | none => none

/-- Embeds Python `int(s)` restricted to non-negative decimal digit
strings (the domain the spec and the input format use): `none` when the
field is empty or holds a non-digit. -/
def pyint (cs : List Char) : Option Nat :=
  match cs with
  | [] => none
  | _ => cs.foldl pyintStep (some 0)

/-- Embeds the Python format `f"{n:02d}"` for a non-negative `n`:
zero-pad the decimal representation to at least two digits. -/
def pad2 (n : Nat) : String :=
  if n < 10 then "0" ++ toString n else toString n

/-- Embeds `VideoEditor._convert_to_hms`: split `time_str` on `':'`, parse the
two fields as integers (`minutes, seconds = map(int, time_str.split(':'))`
fails unless there are exactly two parseable fields), and render
`f"{minutes // 60:02d}:{minutes % 60:02d}:{seconds:02d}"`. -/
def convert_to_hms (time_str : String) : Option String :=
  match (splitOnChar time_str.data ':').map pyint with
  | [some minutes, some seconds] =>
      some (pad2 (minutes / 60) ++ ":" ++ pad2 (minutes % 60) ++ ":" ++ pad2 seconds)
  | _ => none

example : convert_to_hms "75:30" = some "01:15:30" := by decide
example : convert_to_hms "05:09" = some "00:05:09" := by decide
example : convert_to_hms "0:75" = some "00:00:75" := by decide
example : convert_to_hms "1:05" = some "00:01:05" := by decide
example : convert_to_hms "abc" = none := by decide

/-- Embeds Python `s.replace(old, new)` for one-character `old`/`new`
(as used with `(' ', '_')` in `_generate_clip_name`). -/
def replaceChar (s : String) (c r : Char) : String :=
  String.mk (s.data.map (fun x => if x = c then r else x))

/-- Embeds Python `s.replace(old, '')` for a one-character `old`
(as used with `'('`, `')'` in `_generate_clip_name` and with `':'` in
`create_clip`). -/
def removeChar (s : String) (c : Char) : String :=
  String.mk (s.data.filter (fun x => x ≠ c))

/-- Embeds Python `s.strip()`: drop leading and trailing whitespace. -/
def pyStrip (s : String) : String :=
  String.mk
    (((s.data.dropWhile Char.isWhitespace).reverse.dropWhile Char.isWhitespace).reverse)

/-- Embeds `os.path.basename` on a POSIX path: the suffix after the last `'/'`
(`p[p.rfind('/') + 1:]`), here computed by restarting the accumulator at
every separator. -/
def basename (p : String) : String :=
  String.mk (p.data.foldl (fun acc x => if x = '/' then [] else acc ++ [x]) [])

/-- Index of the last occurrence of `c`, or `none`: Python `s.rfind(c)`
with `-1` rendered as `none`. -/
def rfindChar : List Char → Char → Option Nat
  | [], _ => none
  | x :: xs, c =>
    match rfindChar xs c with
    | some i => some (i + 1)
    | none => if x = c then some 0 else none

/-- The root part of `os.path.splitext(p)` (CPython `genericpath._splitext`
with `sep = '/'`, `extsep = '.'`): cut at the last dot when it lies after
the last separator and some earlier character of the final component is
not a dot (the leading-dots rule); otherwise return `p` unchanged. -/
def splitextRoot (p : String) : String :=
  let cs := p.data
  match rfindChar cs '.' with
  | none => p
  | some dotIndex =>
    let filenameIndex : Nat :=
      match rfindChar cs '/' with
      | none => 0
      | some sepIndex => sepIndex + 1
    if filenameIndex ≤ dotIndex ∧ (rfindChar cs '/').all (fun s => s < dotIndex) then
      if ((cs.drop filenameIndex).take (dotIndex - filenameIndex)).any (fun x => x ≠ '.') then
        String.mk (cs.take dotIndex)
      else p
    else p

/-- Embeds `os.path.join(a, b)` on POSIX for exactly two arguments: `b` if it is
absolute; plain concatenation when `a` is empty or ends with the
separator; otherwise insert one `'/'`. -/
def path_join (a b : String) : String :=
  if b.data.head? = some '/' then b
  else if a.data = [] ∨ a.data.getLast? = some '/' then a ++ b
  else a ++ "/" ++ b

/-- Embeds `os.path.dirname(p)` on POSIX: `p[:p.rfind('/') + 1]`, and when that
head is nonempty and not all separators, its trailing separators are
stripped. -/
def dirname (p : String) : String :=
  let cs := p.data
  let head : List Char :=
    match rfindChar cs '/' with
    | none => []
    | some i => cs.take (i + 1)
  if head ≠ [] ∧ head.any (fun x => x ≠ '/') then
    String.mk ((head.reverse.dropWhile (fun x => x = '/')).reverse)
  else
    String.mk head

example : basename "a/b/c.mp4" = "c.mp4" := by decide
example : splitextRoot "game1.mp4" = "game1" := by decide
example : splitextRoot "dir.x/noext" = "dir.x/noext" := by decide
example : splitextRoot ".bashrc" = ".bashrc" := by decide
example : splitextRoot "a/..b.c" = "a/..b" := by decide
example : path_join "f-a/" "f-a/-p" = "f-a/f-a/-p" := by decide
example : path_join "x-y" "x-y-z" = "x-y/x-y-z" := by decide
example : dirname "a-n/a-n-p_000105-000210.mp4" = "a-n" := by decide
example : dirname "file.mp4" = "" := by decide

/-- The settings dictionary keys `create_clip` and `edit_video` read
(`clip_file` is not needed here because the parsed rows are passed to the
model directly). -/
structure Settings where
  threads : Nat
  fps : Nat
  vcodec : String
  compression : String
  deriving DecidableEq, Repr

/-- One observable interaction of the program with the outside world:
opening a source video (`mpy.VideoFileClip`), closing it
(`close_source`), the skip log line for an existing output, ensuring the
output directory (`os.makedirs`), and the engine write
(`clip.write_videofile` with its keyword parameters; `crf` is the string
passed via `ffmpeg_params=["-crf", str(...)]`). Events other than
open/close carry the source the acting `VideoEditor` is bound to. -/
inductive Event where
  | openSource (src : String)
  | closeSource
  | skip (src : String) (path : String)
  | mkdirs (src : String) (dir : String)
  | encode (src : String) (path : String) (threads fps : Nat)
      (vcodec compression crf : String)
  deriving DecidableEq, Repr

/-- The ways a run aborts, named as in the spec's error taxonomy:
`inputFormatError` for a missing required column (Python `KeyError` from
the row dict), `usageError` for delegating to an unbound extractor
(Python `AttributeError` on `None`), `timeFormatError` for an
unparseable `mm:ss` field (Python `ValueError` from `int`). -/
inductive EditError where
  | inputFormatError (column : String)
  | usageError
  | timeFormatError
  deriving DecidableEq, Repr

/-- A CSV row as produced by `csv.DictReader`: column name to value. -/
abbrev Row := List (String × String)

/-- Lookup `row[k]`: `none` models the `KeyError` for an absent column. -/
def getCol (row : Row) (k : String) : Option String :=
  row.lookup k

/-- The driver's mutable state: `prev_source` and the bound editor (kept
as the source it was constructed on, `none` when unbound), together with
the modelled filesystem (paths for which `os.path.exists` is true) and
the trace of external events so far. -/
structure DriverState where
  prev_source : Option String
  editor : Option String
  fs : List String
  events : List Event
  deriving DecidableEq, Repr

/-- The base-file component of the output key, as computed on the first
line of `_generate_clip_name`:
`os.path.basename(os.path.splitext(f)[0]).replace('(', '').replace(')', '')`. -/
def base_file_of (f : String) : String :=
  removeChar (removeChar (basename (splitextRoot f)) '(') ')'

/-- Embeds `VideoClipCSVReader._generate_clip_name`: strip the extension and the
parentheses from the base name of `row['File']`, compose
`f"{base_file}-{row['Name']}"` and `f"{base_file}-{row['Name']}-{row['Play']}"`
with spaces replaced by underscores, and `os.path.join` them. -/
def generate_clip_name (row : Row) : Except EditError String :=
  match getCol row "File" with
  | none => .error (.inputFormatError "File")
  | some file =>
    match getCol row "Name" with
    | none => .error (.inputFormatError "Name")
    | some nm =>
      match getCol row "Play" with
      | none => .error (.inputFormatError "Play")
      | some pl =>
        let base_file := base_file_of file
        let path := replaceChar (base_file ++ "-" ++ nm) ' ' '_'
        let name := replaceChar (base_file ++ "-" ++ nm ++ "-" ++ pl) ' ' '_'
        .ok (path_join path name)

/-- The output path `create_clip` computes:
`f"{output_file}_{clip_start.replace(':', '')}-{clip_end.replace(':', '')}.mp4"`,
`none` when a time string does not parse. -/
def clip_path (output_file start_time end_time : String) : Option String :=
  match convert_to_hms start_time, convert_to_hms end_time with
  | some clip_start, some clip_end =>
      some (output_file ++ "_" ++ removeChar clip_start ':' ++ "-"
            ++ removeChar clip_end ':' ++ ".mp4")
  | _, _ => none

/-- Embeds `VideoEditor.create_clip` for an editor bound to `src`: compute the
output path; if it already exists, log the skip and return; otherwise
ensure the directory and issue the engine write with the parameters
taken from `settings` (note `crf` is `str(self.settings['fps'])`).
Returns the new filesystem and the events of this call; `none` models
the `ValueError` from an unparseable time string. -/
def create_clip (settings : Settings) (src : String) (fs : List String)
    (start_time end_time output_file : String) :
    Option (List String × List Event) :=
  match clip_path output_file start_time end_time with
  | none => none
  | some clip_name =>
    if clip_name ∈ fs then
      some (fs, [Event.skip src clip_name])
    else
      some (clip_name :: fs,
        [Event.mkdirs src (dirname clip_name),
         Event.encode src clip_name settings.threads settings.fps
           settings.vcodec settings.compression (toString settings.fps)])

/-- The re-binding block of `edit_video`
(`if clip['File'] and prev_source != source: ...`): when the row names a
non-empty source different from `prev_source`, update `prev_source`,
close the current editor if one is open, and open a new one on
`source`. -/
def bindPhase (st : DriverState) (source : String) : DriverState :=
  if source ≠ "" ∧ st.prev_source ≠ some source then
    { st with
      prev_source := some source
      editor := some source
      events := st.events ++
        (match st.editor with
         | some _ => [Event.closeSource, Event.openSource source]
         | none => [Event.openSource source]) }
  else st

/-- One iteration of the `edit_video` loop on one CSV row: generate the
clip name (as `clip_list` does when yielding the row), read and strip the
`File`/`Clip Name`/`From`/`To` fields, run the re-binding block, then
delegate to `create_clip` on the bound editor. An error carries the
state at the moment the exception is raised. -/
def step (settings : Settings) (st : DriverState) (row : Row) :
    Except (EditError × DriverState) DriverState :=
  match generate_clip_name row with
  | .error e => .error (e, st)
  | .ok clipName =>
    match getCol row "File" with
    | none => .error (.inputFormatError "File", st)
    | some source =>
      let name := pyStrip clipName
      match getCol row "From" with
      | none => .error (.inputFormatError "From", st)
      | some fromRaw =>
        match getCol row "To" with
        | none => .error (.inputFormatError "To", st)
        | some toRaw =>
          let start_time := pyStrip fromRaw
          let end_time := pyStrip toRaw
          let st1 := bindPhase st source
          match st1.editor with
          | none => .error (.usageError, st1)
          | some src =>
            match create_clip settings src st1.fs start_time end_time name with
            | none => .error (.timeFormatError, st1)
            | some (fs', ev') =>
              .ok { st1 with fs := fs', events := st1.events ++ ev' }

/-- The `for clip in clips.clip_list():` loop of `edit_video`. -/
def runRows (settings : Settings) : DriverState → List Row →
    Except (EditError × DriverState) DriverState
  | st, [] => .ok st
  | st, row :: rest =>
    match step settings st row with
    | .error e => .error e
    | .ok st' => runRows settings st' rest

/-- The driver's starting state: `prev_source = None`, `editor = None`,
the given filesystem, no events yet. -/
def initState (fs0 : List String) : DriverState :=
  ⟨none, none, fs0, []⟩

/-- Embeds `edit_video`: run the loop over all rows, then close the final bound
editor if one is open (`if editor: editor.close_source()`). -/
def edit_video (settings : Settings) (rows : List Row) (fs0 : List String) :
    Except (EditError × DriverState) DriverState :=
  match runRows settings (initState fs0) rows with
  | .error e => .error e
  | .ok st =>
    match st.editor with
    | some _ =>
        .ok { st with editor := none, events := st.events ++ [Event.closeSource] }
    | none => .ok st

/-- Holds exactly on engine write events. -/
def isEncode : Event → Bool
  | .encode _ _ _ _ _ _ _ => true
  | _ => false

/-- Number of engine write events in a trace. -/
def encodeCount (l : List Event) : Nat :=
  l.countP isEncode

/-- The sources of the `openSource` events of a trace, in order. -/
def opensList (l : List Event) : List String :=
  l.filterMap (fun e => match e with | .openSource s => some s | _ => none)

/-! Basic facts about the string model. -/

theorem data_append (a b : String) : (a ++ b).data = a.data ++ b.data := rfl

theorem foldl_pyintStep_none (cs : List Char) :
    cs.foldl pyintStep none = none := by
  induction cs with
  | nil => rfl
  | cons x xs ih => simpa [pyintStep] using ih

theorem foldl_pyintStep_isDigit (cs : List Char) :
    ∀ m n : Nat, cs.foldl pyintStep (some m) = some n → ∀ c ∈ cs, c.isDigit := by
  induction cs with
  | nil => intro m n _ c hc; cases hc
  | cons x xs ih =>
    intro m n h c hc
    by_cases hx : x.isDigit
    · rcases List.mem_cons.mp hc with hcx | hcxs
      · exact hcx ▸ hx
      · exact ih (m * 10 + (x.toNat - 48)) n (by simpa [pyintStep, hx] using h) c hcxs
    · exfalso
      have : xs.foldl pyintStep none = some n := by simpa [pyintStep, hx] using h
      rw [foldl_pyintStep_none] at this
      cases this

theorem pyint_isDigit (cs : List Char) (n : Nat) (h : pyint cs = some n) :
    ∀ c ∈ cs, c.isDigit := by
  cases cs with
  | nil => simp [pyint] at h
  | cons x xs =>
    exact foldl_pyintStep_isDigit (x :: xs) 0 n (by simpa [pyint] using h)

theorem pyint_no_colon (cs : List Char) (n : Nat) (h : pyint cs = some n) :
    ':' ∉ cs := by
  intro hc
  have := pyint_isDigit cs n h ':' hc
  exact absurd this (by decide)

theorem splitOnChar_not_mem (c : Char) (l : List Char) (h : c ∉ l) :
    splitOnChar l c = [l] := by
  induction l with
  | nil => rfl
  | cons x xs ih =>
    have hx : ¬ x = c := fun hxc => h (hxc ▸ List.mem_cons_self x xs)
    have hxs : c ∉ xs := fun hm => h (List.mem_cons_of_mem x hm)
    simp [splitOnChar, hx, ih hxs]

theorem splitOnChar_append (c : Char) (l1 l2 : List Char) (h : c ∉ l1) :
    splitOnChar (l1 ++ c :: l2) c = l1 :: splitOnChar l2 c := by
  induction l1 with
  | nil => simp [splitOnChar]
  | cons x xs ih =>
    have hx : ¬ x = c := fun hxc => h (hxc ▸ List.mem_cons_self x xs)
    have hxs : c ∉ xs := fun hm => h (List.mem_cons_of_mem x hm)
    simp [splitOnChar, hx, ih hxs]

/-- Evaluation of `_convert_to_hms` on any well-formed two-field time
string: with `s = a ++ ":" ++ b` where `a` parses to `M` and `b` to `S`,
the result is the three zero-padded fields `M / 60`, `M % 60`, `S`. -/
theorem convert_to_hms_eval (s : String) (a b : List Char) (M S : Nat)
    (hform : s.data = a ++ ':' :: b)
    (hM : pyint a = some M) (hS : pyint b = some S) :
    convert_to_hms s =
      some (pad2 (M / 60) ++ ":" ++ pad2 (M % 60) ++ ":" ++ pad2 S) := by
  have hna : ':' ∉ a := pyint_no_colon a M hM
  have hnb : ':' ∉ b := pyint_no_colon b S hS
  have hsplit : splitOnChar s.data ':' = [a, b] := by
    rw [hform, splitOnChar_append ':' a b hna, splitOnChar_not_mem ':' b hnb]
  unfold convert_to_hms
  rw [hsplit]
  simp [hM, hS]

/-- C1: for every time string of the form `M:S` with `M`, `S`
non-negative decimal integers and `0 ≤ S < 60`, the conversion returns
`HH:MM:SS` with `HH = M / 60`, `MM = M % 60`, `SS = S`, each field
zero-padded to at least two digits; in particular
`convertTime "75:30" = "01:15:30"` and `convertTime "05:09" = "00:05:09"`,
and the minutes may exceed 59 (`75` above). -/
theorem C1_convertTime_div_mod (s : String) (a b : List Char) (M S : Nat)
    (hform : s.data = a ++ ':' :: b)
    (hM : pyint a = some M) (hS : pyint b = some S) (hSlt : S < 60) :
    convert_to_hms s =
      some (pad2 (M / 60) ++ ":" ++ pad2 (M % 60) ++ ":" ++ pad2 S) ∧
    convert_to_hms "75:30" = some "01:15:30" ∧
    convert_to_hms "05:09" = some "00:05:09" :=
  ⟨convert_to_hms_eval s a b M S hform hM hS, by decide, by decide⟩

/-- C1 witness: the theorem applied at `"75:30"`, i.e. `M = 75`,
`S = 30`. -/
theorem C1_convertTime_div_mod_witness :
    convert_to_hms "75:30" =
      some (pad2 (75 / 60) ++ ":" ++ pad2 (75 % 60) ++ ":" ++ pad2 30) :=
  (C1_convertTime_div_mod "75:30" ['7', '5'] ['3', '0'] 75 30
    (by decide) (by decide) (by decide) (by decide)).1

/-- C10: the conversion never validates the seconds field: for every
two-field time string the seconds token is emitted as given, zero-padded,
with no `0 ≤ S < 60` precondition; `"0:75"` yields `"00:00:75"`, and
that non-wall-clock token flows into the engine call and the output
file name of `create_clip`. -/
theorem C10_convertTime_no_seconds_validation (s : String) (a b : List Char)
    (M S : Nat) (hform : s.data = a ++ ':' :: b)
    (hM : pyint a = some M) (hS : pyint b = some S) :
    convert_to_hms s =
      some (pad2 (M / 60) ++ ":" ++ pad2 (M % 60) ++ ":" ++ pad2 S) ∧
    convert_to_hms "0:75" = some "00:00:75" ∧
    create_clip ⟨2, 30, "libx264", "fast"⟩ "a.mp4" [] "0:75" "1:15" "g/out" =
      some (["g/out_000075-000115.mp4"],
        [Event.mkdirs "a.mp4" "g",
         Event.encode "a.mp4" "g/out_000075-000115.mp4" 2 30 "libx264" "fast" "30"]) :=
  ⟨convert_to_hms_eval s a b M S hform hM hS, by decide, by decide⟩

/-- C10 witness: the theorem applied at `"0:75"`, whose seconds field is
75 ≥ 60. -/
theorem C10_convertTime_no_seconds_validation_witness :
    convert_to_hms "0:75" =
      some (pad2 (0 / 60) ++ ":" ++ pad2 (0 % 60) ++ ":" ++ pad2 75) :=
  (C10_convertTime_no_seconds_validation "0:75" ['0'] ['7', '5'] 0 75
    (by decide) (by decide) (by decide)).1

/-! Facts about the path helpers, used for the output-key derivation. -/

theorem basename_no_slash (s : String) : ∀ x ∈ (basename s).data, x ≠ '/' := by
  have general : ∀ (cs acc : List Char), (∀ x ∈ acc, x ≠ '/') →
      ∀ x ∈ cs.foldl (fun acc x => if x = '/' then [] else acc ++ [x]) acc, x ≠ '/' := by
    intro cs
    induction cs with
    | nil => intro acc h; exact h
    | cons y ys ih =>
      intro acc h x hx
      refine ih (if y = '/' then [] else acc ++ [y]) ?_ x hx
      intro z hz
      by_cases hy : y = '/'
      · simp [hy] at hz
      · simp [hy] at hz
        rcases hz with hz | hz
        · exact h z hz
        · exact hz ▸ hy
  exact general s.data [] (by simp)

/-- Characters of `removeChar s c` are characters of `s`. -/
theorem removeChar_mem (s : String) (c x : Char) (h : x ∈ (removeChar s c).data) :
    x ∈ s.data := by
  simp only [removeChar, List.mem_filter] at h
  exact h.1

theorem base_file_of_no_slash (f : String) :
    ∀ x ∈ (base_file_of f).data, x ≠ '/' := by
  intro x hx
  exact basename_no_slash (splitextRoot f) x
    (removeChar_mem _ '(' x (removeChar_mem _ ')' x hx))

/-- Lemma: `os.path.join` inserts exactly one separator when the second argument
is not absolute and the first is nonempty and does not end with one. -/
theorem path_join_sep (a b : String)
    (hb : b.data.head? ≠ some '/')
    (ha0 : a.data ≠ [])
    (ha1 : a.data.getLast? ≠ some '/') :
    path_join a b = a ++ "/" ++ b := by
  simp [path_join, hb, ha0, ha1]

/-- The head of a space-to-underscore substituted `l ++ '-' :: rest` is
never the path separator, provided `l` holds no separator. -/
theorem replace_head_ne_slash (l rest : List Char) (hl : ∀ x ∈ l, x ≠ '/') :
    ((l ++ '-' :: rest).map (fun x => if x = ' ' then '_' else x)).head? ≠
      some '/' := by
  cases l with
  | nil => simp
  | cons c cs =>
    have hc : c ≠ '/' := hl c (List.mem_cons_self c cs)
    by_cases hsp : c = ' '
    · simp [hsp]
    · simp [hsp, hc]

/-- C2 counterexample: for the row
`File = "f.mp4"`, `Name = "a/"`, `Play = "p"` the code joins the two
composed components with a single separator (`os.path.join` adds none
after a component that already ends in one), while the claimed template
`"base-Name" ++ "/" ++ "base-Name-Play"` carries a doubled separator
there; the two strings differ. -/
theorem C2_output_key_template_counterexample :
    generate_clip_name [("File", "f.mp4"), ("Name", "a/"), ("Play", "p")] =
      .ok "f-a/f-a/-p" ∧
    "f-a/f-a/-p" ≠ "f-a//f-a/-p" := by
  constructor
  · decide
  · decide

/-- C2 (amended): for every row with fields `File`, `Name`, `Play`, the
derived output key equals the two-level relative path
`"{base}-{Name}/{base}-{Name}-{Play}"` — `base` being `File`'s base name
with extension and parentheses removed, spaces in the composed
components replaced by underscores — provided the first composed
component does not end with the separator `'/'` (when it does,
`os.path.join` collapses the template's separator). -/
theorem C2_output_key_template (row : Row) (f n p : String)
    (hf : getCol row "File" = some f) (hn : getCol row "Name" = some n)
    (hp : getCol row "Play" = some p)
    (hnoslash :
      (replaceChar (base_file_of f ++ "-" ++ n) ' ' '_').data.getLast? ≠
        some '/') :
    generate_clip_name row = .ok
      (replaceChar (base_file_of f ++ "-" ++ n) ' ' '_' ++ "/" ++
       replaceChar (base_file_of f ++ "-" ++ n ++ "-" ++ p) ' ' '_') := by
  unfold generate_clip_name
  rw [hf, hn, hp]
  show Except.ok
      (path_join (replaceChar (base_file_of f ++ "-" ++ n) ' ' '_')
        (replaceChar (base_file_of f ++ "-" ++ n ++ "-" ++ p) ' ' '_')) = _
  have hdata :
      (base_file_of f ++ "-" ++ n ++ "-" ++ p).data =
        (base_file_of f).data ++ '-' :: (n.data ++ '-' :: p.data) := by
    simp [data_append, List.append_assoc]
  have hb :
      (replaceChar (base_file_of f ++ "-" ++ n ++ "-" ++ p) ' ' '_').data.head?
        ≠ some '/' := by
    simp only [replaceChar, hdata]
    exact replace_head_ne_slash _ _ (base_file_of_no_slash f)
  have ha0 : (replaceChar (base_file_of f ++ "-" ++ n) ' ' '_').data ≠ [] := by
    simp [replaceChar, data_append]
  rw [path_join_sep _ _ hb ha0 hnoslash]

/-- C2 witness: the amended theorem applied at the scenario row
`File = "game1.mp4"`, `Name = "Intro"`, `Play = "Good"`. -/
theorem C2_output_key_template_witness :
    generate_clip_name
        [("File", "game1.mp4"), ("Name", "Intro"), ("Play", "Good")] = .ok
      (replaceChar (base_file_of "game1.mp4" ++ "-" ++ "Intro") ' ' '_' ++ "/" ++
       replaceChar (base_file_of "game1.mp4" ++ "-" ++ "Intro" ++ "-" ++ "Good")
         ' ' '_') :=
  C2_output_key_template
    [("File", "game1.mp4"), ("Name", "Intro"), ("Play", "Good")]
    "game1.mp4" "Intro" "Good" (by decide) (by decide) (by decide) (by decide)

/-! Concrete fixtures used by the witnesses below. -/

/-- A concrete settings value: 2 threads, 30 fps, x264, `fast` preset. -/
def settings0 : Settings := ⟨2, 30, "libx264", "fast"⟩

/-- The spec's end-to-end scenario row. -/
def rowGame1 : Row :=
  [("File", "game1.mp4"), ("From", "1:05"), ("To", "2:10"),
   ("Name", "Intro"), ("Play", "Good")]

/-- C3: the output artifact path computed by `create_clip` is
`"{output_key}_{startHMS}-{endHMS}.mp4"` with the colons removed from the
converted times; it is a deterministic pure function of
`(output_key, start, end)`; and the scenario row
`File=game1.mp4, From=1:05, To=2:10, Name=Intro, Play=Good` yields
`game1-Intro/game1-Intro-Good_000105-000210.mp4`. -/
theorem C3_output_artifact_path (out start_time end_time cs ce : String)
    (hs : convert_to_hms start_time = some cs)
    (he : convert_to_hms end_time = some ce) :
    clip_path out start_time end_time =
      some (out ++ "_" ++ removeChar cs ':' ++ "-" ++ removeChar ce ':'
            ++ ".mp4") ∧
    (∀ o2 s2 e2 : String, out = o2 → start_time = s2 → end_time = e2 →
      clip_path out start_time end_time = clip_path o2 s2 e2) ∧
    generate_clip_name rowGame1 = .ok "game1-Intro/game1-Intro-Good" ∧
    clip_path "game1-Intro/game1-Intro-Good" "1:05" "2:10" =
      some "game1-Intro/game1-Intro-Good_000105-000210.mp4" := by
  refine ⟨by simp [clip_path, hs, he], ?_, by decide, by decide⟩
  intro o2 s2 e2 h1 h2 h3
  rw [h1, h2, h3]

/-- C3 witness: the theorem applied at the scenario's output key and
times. -/
theorem C3_output_artifact_path_witness :
    clip_path "game1-Intro/game1-Intro-Good" "1:05" "2:10" =
      some ("game1-Intro/game1-Intro-Good" ++ "_"
            ++ removeChar "00:01:05" ':' ++ "-" ++ removeChar "00:02:10" ':'
            ++ ".mp4") :=
  (C3_output_artifact_path "game1-Intro/game1-Intro-Good" "1:05" "2:10"
    "00:01:05" "00:02:10" (by decide) (by decide)).1

/-- C7: when the output does not yet exist, `create_clip` first ensures
the destination directory and then issues the engine write whose
parameters are `threads`, `fps`, `vcodec`, `compression` from the
settings, and whose quality (CRF) argument is the decimal string of the
same `fps` value passed as the frame rate. -/
theorem C7_encode_parameters (settings : Settings) (src : String)
    (fs : List String) (start_time end_time out p : String)
    (hp : clip_path out start_time end_time = some p) (hnew : p ∉ fs) :
    create_clip settings src fs start_time end_time out =
      some (p :: fs,
        [Event.mkdirs src (dirname p),
         Event.encode src p settings.threads settings.fps settings.vcodec
           settings.compression (toString settings.fps)]) := by
  simp [create_clip, hp, hnew]

/-- C7 witness: the theorem applied at the scenario row's path with an
empty filesystem: the CRF string `"30"` is the decimal of the fps 30. -/
theorem C7_encode_parameters_witness :
    create_clip settings0 "game1.mp4" []
        "1:05" "2:10" "game1-Intro/game1-Intro-Good" =
      some (["game1-Intro/game1-Intro-Good_000105-000210.mp4"],
        [Event.mkdirs "game1.mp4"
           (dirname "game1-Intro/game1-Intro-Good_000105-000210.mp4"),
         Event.encode "game1.mp4"
           "game1-Intro/game1-Intro-Good_000105-000210.mp4"
           settings0.threads settings0.fps settings0.vcodec
           settings0.compression (toString settings0.fps)]) :=
  C7_encode_parameters settings0 "game1.mp4" [] "1:05" "2:10"
    "game1-Intro/game1-Intro-Good"
    "game1-Intro/game1-Intro-Good_000105-000210.mp4" (by decide) (by decide)

/-! Machinery for reasoning about the driver loop. -/

/-- The events the re-binding block appends, as a function of the
tracked source, the current editor, and the row's source. -/
def bindDelta (ps ed : Option String) (source : String) : List Event :=
  if source ≠ "" ∧ ps ≠ some source then
    match ed with
    | some _ => [Event.closeSource, Event.openSource source]
    | none => [Event.openSource source]
  else []

theorem bindPhase_eq (st : DriverState) (source : String) :
    bindPhase st source =
      ⟨if source ≠ "" ∧ st.prev_source ≠ some source then some source
        else st.prev_source,
       if source ≠ "" ∧ st.prev_source ≠ some source then some source
        else st.editor,
       st.fs,
       st.events ++ bindDelta st.prev_source st.editor source⟩ := by
  unfold bindPhase bindDelta
  split
  · rename_i h
    simp [h]
  · rename_i h
    simp [h]

/-- Full evaluation of `step` once the four row fields are known. -/
theorem step_expand (settings : Settings) (ps ed : Option String)
    (fs : List String) (ev : List Event) (row : Row)
    (nm source fromRaw toRaw : String)
    (hg : generate_clip_name row = .ok nm)
    (hf : getCol row "File" = some source)
    (hfr : getCol row "From" = some fromRaw)
    (hto : getCol row "To" = some toRaw) :
    step settings ⟨ps, ed, fs, ev⟩ row =
      (match (if source ≠ "" ∧ ps ≠ some source then some source else ed) with
       | none => .error (.usageError,
           ⟨if source ≠ "" ∧ ps ≠ some source then some source else ps,
            if source ≠ "" ∧ ps ≠ some source then some source else ed,
            fs, ev ++ bindDelta ps ed source⟩)
       | some src =>
         match create_clip settings src fs (pyStrip fromRaw) (pyStrip toRaw)
             (pyStrip nm) with
         | none => .error (.timeFormatError,
             ⟨if source ≠ "" ∧ ps ≠ some source then some source else ps,
              if source ≠ "" ∧ ps ≠ some source then some source else ed,
              fs, ev ++ bindDelta ps ed source⟩)
         | some (fs', ev') => .ok
             ⟨if source ≠ "" ∧ ps ≠ some source then some source else ps,
              if source ≠ "" ∧ ps ≠ some source then some source else ed,
              fs', (ev ++ bindDelta ps ed source) ++ ev'⟩) := by
  unfold step
  rw [hg, hf, hfr, hto]
  by_cases hc : source ≠ "" ∧ ps ≠ some source
  · simp [bindPhase, bindDelta, hc]
  · simp [bindPhase, bindDelta, hc]

/-- Splitting a run of the driver loop at a list append. -/
theorem runRows_append (settings : Settings) (st : DriverState)
    (l1 l2 : List Row) :
    runRows settings st (l1 ++ l2) =
      (match runRows settings st l1 with
       | .error e => .error e
       | .ok st' => runRows settings st' l2) := by
  induction l1 generalizing st with
  | nil => cases h : runRows settings st l2 <;> simp [runRows, h]
  | cons r rs ih =>
    cases h : step settings st r with
    | error e => simp [runRows, h]
    | ok st1 => simp [runRows, h, ih st1]

/-- Inversion of a successful `create_clip` call: the output path is
defined, and the call either skipped (path already present, filesystem
unchanged) or encoded (path added, directory event then write event). -/
theorem create_clip_some_inv (settings : Settings) (src : String)
    (fs : List String) (a b o : String) (fs' : List String) (d : List Event)
    (h : create_clip settings src fs a b o = some (fs', d)) :
    ∃ p, clip_path o a b = some p ∧
      ((p ∈ fs ∧ fs' = fs ∧ d = [Event.skip src p]) ∨
       (p ∉ fs ∧ fs' = p :: fs ∧
        d = [Event.mkdirs src (dirname p),
             Event.encode src p settings.threads settings.fps settings.vcodec
               settings.compression (toString settings.fps)])) := by
  unfold create_clip at h
  cases hp : clip_path o a b with
  | none =>
    simp only [hp] at h
    exact Option.noConfusion h
  | some p =>
    simp only [hp] at h
    refine ⟨p, rfl, ?_⟩
    by_cases hmem : p ∈ fs
    · left
      rw [if_pos hmem] at h
      injection h with h'
      injection h' with ha hb
      exact ⟨hmem, ha.symm, hb.symm⟩
    · right
      rw [if_neg hmem] at h
      injection h with h'
      injection h' with ha hb
      exact ⟨hmem, ha.symm, hb.symm⟩

/-- C9: a first request whose source field is empty while no extractor is
bound makes the driver fail with the fatal usage error (the delegation
`editor.create_clip` on an unbound editor); the batch aborts in the
initial state, so no clip is produced for the request. -/
theorem C9_usage_error_unbound (settings : Settings) (rest : List Row)
    (row : Row) (fs0 : List String) (n p fromRaw toRaw : String)
    (hf : getCol row "File" = some "")
    (hn : getCol row "Name" = some n) (hp : getCol row "Play" = some p)
    (hfr : getCol row "From" = some fromRaw)
    (hto : getCol row "To" = some toRaw) :
    edit_video settings (row :: rest) fs0 =
      .error (.usageError, initState fs0) ∧
    encodeCount (initState fs0).events = 0 := by
  have hg : generate_clip_name row = .ok
      (path_join (replaceChar (base_file_of "" ++ "-" ++ n) ' ' '_')
        (replaceChar (base_file_of "" ++ "-" ++ n ++ "-" ++ p) ' ' '_')) := by
    unfold generate_clip_name
    rw [hf, hn, hp]
  constructor
  · unfold edit_video runRows initState
    rw [step_expand settings none none fs0 [] row _ "" fromRaw toRaw hg hf hfr hto]
    simp [bindDelta]
  · rfl

/-- C9 witness: the theorem applied at a one-row batch whose single row
has `File = ""`. -/
theorem C9_usage_error_unbound_witness :
    edit_video settings0
        [[("File", ""), ("Name", "n"), ("Play", "p"),
          ("From", "1:05"), ("To", "2:10")]] [] =
      .error (.usageError, initState []) ∧
    encodeCount (initState []).events = 0 :=
  C9_usage_error_unbound settings0 []
    [("File", ""), ("Name", "n"), ("Play", "p"),
     ("From", "1:05"), ("To", "2:10")]
    [] "n" "p" "1:05" "2:10"
    (by decide) (by decide) (by decide) (by decide) (by decide)

/-- C8: a row whose required `From` column is absent aborts the batch
with the input-format error at the very state reached after the earlier
rows — in particular before any event (so before any encode call) is
issued for that row. -/
theorem C8_missing_from_aborts (settings : Settings) (pre rest : List Row)
    (bad : Row) (fs0 : List String) (st1 : DriverState) (f n p : String)
    (hpre : runRows settings (initState fs0) pre = .ok st1)
    (hf : getCol bad "File" = some f) (hn : getCol bad "Name" = some n)
    (hp : getCol bad "Play" = some p)
    (hFrom : getCol bad "From" = none) :
    edit_video settings (pre ++ bad :: rest) fs0 =
      .error (.inputFormatError "From", st1) := by
  have hg : generate_clip_name bad = .ok
      (path_join (replaceChar (base_file_of f ++ "-" ++ n) ' ' '_')
        (replaceChar (base_file_of f ++ "-" ++ n ++ "-" ++ p) ' ' '_')) := by
    unfold generate_clip_name
    rw [hf, hn, hp]
  have hstep : step settings st1 bad = .error (.inputFormatError "From", st1) := by
    unfold step
    rw [hg, hf, hFrom]
  unfold edit_video
  rw [runRows_append, hpre]
  simp [runRows, hstep]

/-- C8 witness: after the scenario row completes, a second row lacking
`From` aborts with the input-format error in exactly the state the first
row left (one encode event, none added for the bad row). -/
theorem C8_missing_from_aborts_witness :
    edit_video settings0
        ([rowGame1] ++
          [("File", "game1.mp4"), ("Name", "Intro"), ("Play", "Bad"),
           ("To", "2:10")] :: []) [] =
      .error (.inputFormatError "From",
        ⟨some "game1.mp4", some "game1.mp4",
         ["game1-Intro/game1-Intro-Good_000105-000210.mp4"],
         [Event.openSource "game1.mp4",
          Event.mkdirs "game1.mp4" "game1-Intro",
          Event.encode "game1.mp4"
            "game1-Intro/game1-Intro-Good_000105-000210.mp4"
            2 30 "libx264" "fast" "30"]⟩) :=
  C8_missing_from_aborts settings0 [rowGame1] []
    [("File", "game1.mp4"), ("Name", "Intro"), ("Play", "Bad"), ("To", "2:10")]
    []
    ⟨some "game1.mp4", some "game1.mp4",
     ["game1-Intro/game1-Intro-Good_000105-000210.mp4"],
     [Event.openSource "game1.mp4",
      Event.mkdirs "game1.mp4" "game1-Intro",
      Event.encode "game1.mp4"
        "game1-Intro/game1-Intro-Good_000105-000210.mp4"
        2 30 "libx264" "fast" "30"]⟩
    "game1.mp4" "Intro" "Bad"
    (by decide) (by decide) (by decide) (by decide) (by decide)

/-- The source a delegated (non-binding) event is served by: the tag on
skip, mkdirs and encode events; open and close are binding actions, not
delegations. -/
def eventSrc : Event → Option String
  | .openSource _ => none
  | .closeSource => none
  | .skip s _ => some s
  | .mkdirs s _ => some s
  | .encode s _ _ _ _ _ _ => some s

theorem opensList_append (l m : List Event) :
    opensList (l ++ m) = opensList l ++ opensList m := by
  simp [opensList]

theorem opensList_bindDelta (ps ed : Option String) (source : String) :
    opensList (bindDelta ps ed source) =
      if source ≠ "" ∧ ps ≠ some source then [source] else [] := by
  unfold bindDelta
  by_cases h : source ≠ "" ∧ ps ≠ some source
  · rw [if_pos h, if_pos h]
    cases ed <;> simp [opensList]
  · rw [if_neg h, if_neg h]
    rfl

/-- A row with an empty source field never re-binds: `step` keeps
`prev_source` and the bound editor and goes straight to `create_clip`
on the currently bound source. -/
theorem step_empty_source (settings : Settings) (ps : Option String)
    (src : String) (fs : List String) (ev : List Event) (row : Row)
    (nm fromRaw toRaw : String)
    (hg : generate_clip_name row = .ok nm)
    (hf : getCol row "File" = some "")
    (hfr : getCol row "From" = some fromRaw)
    (hto : getCol row "To" = some toRaw) :
    step settings ⟨ps, some src, fs, ev⟩ row =
      (match create_clip settings src fs (pyStrip fromRaw) (pyStrip toRaw)
          (pyStrip nm) with
       | none => .error (.timeFormatError, ⟨ps, some src, fs, ev⟩)
       | some (fs', ev') => .ok ⟨ps, some src, fs', ev ++ ev'⟩) := by
  rw [step_expand settings ps (some src) fs ev row nm "" fromRaw toRaw
    hg hf hfr hto]
  cases hcc : create_clip settings src fs (pyStrip fromRaw) (pyStrip toRaw)
      (pyStrip nm) with
  | none => simp [bindDelta, hcc]
  | some pr =>
    obtain ⟨fs', d⟩ := pr
    simp [bindDelta, hcc]

/-- The four-row fixture of the grouping scenario: two rows on source
`a.mp4`, one row with an empty source, one row on `b.mp4`. -/
def rowA1 : Row :=
  [("File", "a.mp4"), ("Name", "n"), ("Play", "p"), ("From", "1:05"), ("To", "2:10")]

def rowA2 : Row :=
  [("File", "a.mp4"), ("Name", "n2"), ("Play", "p"), ("From", "3:05"), ("To", "4:10")]

def rowE : Row :=
  [("File", ""), ("Name", "n3"), ("Play", "p"), ("From", "5:05"), ("To", "6:10")]

def rowB : Row :=
  [("File", "b.mp4"), ("Name", "n4"), ("Play", "p"), ("From", "7:05"), ("To", "8:10")]

/-- The full event trace of the grouping scenario: one binding on
`a.mp4` serving three rows (the empty-source row's events are tagged
`"a.mp4"`), then a release and one binding on `b.mp4`. -/
def traceAAEB : List Event :=
  [Event.openSource "a.mp4",
   Event.mkdirs "a.mp4" "a-n",
   Event.encode "a.mp4" "a-n/a-n-p_000105-000210.mp4" 2 30 "libx264" "fast" "30",
   Event.mkdirs "a.mp4" "a-n2",
   Event.encode "a.mp4" "a-n2/a-n2-p_000305-000410.mp4" 2 30 "libx264" "fast" "30",
   Event.mkdirs "a.mp4" "-n3",
   Event.encode "a.mp4" "-n3/-n3-p_000505-000610.mp4" 2 30 "libx264" "fast" "30",
   Event.closeSource,
   Event.openSource "b.mp4",
   Event.mkdirs "b.mp4" "b-n4",
   Event.encode "b.mp4" "b-n4/b-n4-p_000705-000810.mp4" 2 30 "libx264" "fast" "30",
   Event.closeSource]

/-- C5: (i) the re-binding block appends an open event exactly when the
row's source is non-empty and differs from the tracked source, and then
exactly one, on that source; (ii) a successfully processed row whose
source field is empty leaves the binding untouched and all its events
are served by the currently bound extractor; (iii) on the row sequence
`[src=a.mp4, src=a.mp4, src="", src=b.mp4]` exactly two bindings occur,
`a.mp4` then `b.mp4`, with the empty-source row's events tagged
`"a.mp4"` in the trace. -/
theorem C5_grouping_rule :
    (∀ (st : DriverState) (source : String),
      opensList (bindPhase st source).events =
        opensList st.events ++
          (if source ≠ "" ∧ st.prev_source ≠ some source then [source]
           else [])) ∧
    (∀ (settings : Settings) (ps : Option String) (src : String)
        (fs : List String) (ev : List Event) (row : Row)
        (nm fromRaw toRaw : String),
      generate_clip_name row = .ok nm → getCol row "File" = some "" →
      getCol row "From" = some fromRaw → getCol row "To" = some toRaw →
      ∀ st', step settings ⟨ps, some src, fs, ev⟩ row = .ok st' →
        st'.prev_source = ps ∧ st'.editor = some src ∧
        ∃ d, st'.events = ev ++ d ∧ ∀ e ∈ d, eventSrc e = some src) ∧
    (edit_video settings0 [rowA1, rowA2, rowE, rowB] [] = .ok
      ⟨some "b.mp4", none,
       ["b-n4/b-n4-p_000705-000810.mp4", "-n3/-n3-p_000505-000610.mp4",
        "a-n2/a-n2-p_000305-000410.mp4", "a-n/a-n-p_000105-000210.mp4"],
       traceAAEB⟩ ∧
     opensList traceAAEB = ["a.mp4", "b.mp4"]) := by
  refine ⟨?_, ?_, by decide, by decide⟩
  · intro st source
    rw [bindPhase_eq]
    show opensList (st.events ++ bindDelta st.prev_source st.editor source) = _
    rw [opensList_append, opensList_bindDelta]
  · intro settings ps src fs ev row nm fromRaw toRaw hg hf hfr hto st' hok
    rw [step_empty_source settings ps src fs ev row nm fromRaw toRaw
      hg hf hfr hto] at hok
    cases hcc : create_clip settings src fs (pyStrip fromRaw) (pyStrip toRaw)
        (pyStrip nm) with
    | none =>
      rw [hcc] at hok
      exact Except.noConfusion hok
    | some pr =>
      obtain ⟨fs', d⟩ := pr
      rw [hcc] at hok
      injection hok with h'
      subst h'
      refine ⟨rfl, rfl, d, rfl, ?_⟩
      obtain ⟨p, _, hshape⟩ := create_clip_some_inv settings src fs _ _ _ fs' d hcc
      rcases hshape with ⟨_, _, rfl⟩ | ⟨_, _, rfl⟩
      · intro e he
        rw [List.mem_singleton] at he
        subst he
        rfl
      · intro e he
        rcases List.mem_cons.mp he with rfl | he2
        · rfl
        · rcases List.mem_cons.mp he2 with rfl | he3
          · rfl
          · cases he3

/-! Inversion and monotonicity facts feeding the idempotence claim. -/

theorem bindPhase_fs (st : DriverState) (source : String) :
    (bindPhase st source).fs = st.fs := by
  unfold bindPhase
  split <;> rfl

theorem bindPhase_editor (st : DriverState) (source : String) :
    (bindPhase st source).editor =
      if source ≠ "" ∧ st.prev_source ≠ some source then some source
      else st.editor := by
  unfold bindPhase
  split
  · rename_i h
    simp [h]
  · rename_i h
    simp [h]

theorem bindPhase_prev (st : DriverState) (source : String) :
    (bindPhase st source).prev_source =
      if source ≠ "" ∧ st.prev_source ≠ some source then some source
      else st.prev_source := by
  unfold bindPhase
  split
  · rename_i h
    simp [h]
  · rename_i h
    simp [h]

theorem bindPhase_events (st : DriverState) (source : String) :
    (bindPhase st source).events =
      st.events ++ bindDelta st.prev_source st.editor source := by
  rw [bindPhase_eq]

/-- Full inversion of a successful loop iteration. -/
theorem step_ok_inv (settings : Settings) (st : DriverState) (row : Row)
    (st' : DriverState) (h : step settings st row = .ok st') :
    ∃ nm source fromRaw toRaw src fs' ev',
      generate_clip_name row = .ok nm ∧
      getCol row "File" = some source ∧
      getCol row "From" = some fromRaw ∧
      getCol row "To" = some toRaw ∧
      (bindPhase st source).editor = some src ∧
      create_clip settings src st.fs (pyStrip fromRaw) (pyStrip toRaw)
        (pyStrip nm) = some (fs', ev') ∧
      st' = ⟨(bindPhase st source).prev_source, some src, fs',
             (bindPhase st source).events ++ ev'⟩ := by
  unfold step at h
  split at h
  · exact Except.noConfusion h
  rename_i nm hg
  split at h
  · exact Except.noConfusion h
  rename_i source hf
  split at h
  · exact Except.noConfusion h
  rename_i fromRaw hfr
  split at h
  · exact Except.noConfusion h
  rename_i toRaw hto
  simp only [] at h
  split at h
  · exact Except.noConfusion h
  rename_i src hbind
  split at h
  · exact Except.noConfusion h
  rename_i pr fs' ev' hcc
  injection h with h'
  rw [hbind] at h'
  rw [bindPhase_fs] at hcc
  exact ⟨nm, source, fromRaw, toRaw, src, fs', ev', hg, hf, hfr, hto, hbind,
    hcc, h'.symm⟩

/-- The output path a row determines, when its fields are well formed:
what `create_clip` computes from the stripped `Clip Name`, `From` and
`To` fields. -/
def rowPath (row : Row) : Option String :=
  match generate_clip_name row, getCol row "From", getCol row "To" with
  | .ok nm, some f, some t => clip_path (pyStrip nm) (pyStrip f) (pyStrip t)
  | _, _, _ => none

/-- A successful iteration only grows the filesystem and records the
row's output path in it. -/
theorem step_ok_fs (settings : Settings) (st : DriverState) (row : Row)
    (st' : DriverState) (h : step settings st row = .ok st') :
    (∀ x ∈ st.fs, x ∈ st'.fs) ∧
    ∃ p, rowPath row = some p ∧ p ∈ st'.fs := by
  obtain ⟨nm, source, fromRaw, toRaw, src, fs', ev', hg, hf, hfr, hto, hbind,
    hcc, hst⟩ := step_ok_inv settings st row st' h
  obtain ⟨p, hp, hshape⟩ :=
    create_clip_some_inv settings src st.fs _ _ _ fs' ev' hcc
  have hrp : rowPath row = some p := by
    unfold rowPath
    rw [hg, hfr, hto]
    exact hp
  subst hst
  rcases hshape with ⟨hmem, rfl, _⟩ | ⟨_, rfl, _⟩
  · exact ⟨fun x hx => hx, p, hrp, hmem⟩
  · exact ⟨fun x hx => List.mem_cons_of_mem _ hx, p, hrp,
      List.mem_cons_self _ _⟩

/-- Over a successful run, the filesystem grows monotonically and ends
up containing the output path of every processed row. -/
theorem runRows_records (settings : Settings) (rows : List Row) :
    ∀ st st', runRows settings st rows = .ok st' →
      (∀ x ∈ st.fs, x ∈ st'.fs) ∧
      (∀ row ∈ rows, ∃ p, rowPath row = some p ∧ p ∈ st'.fs) := by
  induction rows with
  | nil =>
    intro st st' h
    simp [runRows] at h
    subst h
    exact ⟨fun x hx => hx, fun row hr => absurd hr (List.not_mem_nil row)⟩
  | cons r rs ih =>
    intro st st' h
    cases hstep : step settings st r with
    | error e => simp [runRows, hstep] at h
    | ok st1 =>
      have h2 : runRows settings st1 rs = .ok st' := by
        simpa [runRows, hstep] using h
      obtain ⟨hmono1, p, hp, hpmem⟩ := step_ok_fs settings st r st1 hstep
      obtain ⟨hmono2, hrec⟩ := ih st1 st' h2
      refine ⟨fun x hx => hmono2 x (hmono1 x hx), ?_⟩
      intro row hr
      rcases List.mem_cons.mp hr with rfl | hr2
      · exact ⟨p, hp, hmono2 p hpmem⟩
      · exact hrec row hr2

theorem encodeCount_append (l m : List Event) :
    encodeCount (l ++ m) = encodeCount l + encodeCount m := by
  simp [encodeCount, List.countP_append]

theorem encodeCount_bindDelta (ps ed : Option String) (source : String) :
    encodeCount (bindDelta ps ed source) = 0 := by
  unfold bindDelta
  split
  · cases ed <;> rfl
  · rfl

/-- Re-running the loop with the same control state on a filesystem that
already holds every row's output path succeeds with the same final
binding, an unchanged filesystem, and an encode-free trace extension. -/
theorem runRows_rerun (settings : Settings) (rows : List Row) :
    ∀ (ps ed : Option String) (fsA : List String) (evA : List Event)
      (stA : DriverState) (fsB : List String) (evB : List Event),
      runRows settings ⟨ps, ed, fsA, evA⟩ rows = .ok stA →
      (∀ row ∈ rows, ∀ p, rowPath row = some p → p ∈ fsB) →
      ∃ d, runRows settings ⟨ps, ed, fsB, evB⟩ rows =
          .ok ⟨stA.prev_source, stA.editor, fsB, evB ++ d⟩ ∧
        encodeCount d = 0 := by
  induction rows with
  | nil =>
    intro ps ed fsA evA stA fsB evB h _
    simp [runRows] at h
    refine ⟨[], ?_, rfl⟩
    rw [← h]
    simp [runRows]
  | cons r rs ih =>
    intro ps ed fsA evA stA fsB evB h hmem
    cases hstep : step settings ⟨ps, ed, fsA, evA⟩ r with
    | error e => simp [runRows, hstep] at h
    | ok stA1 =>
      have h2 : runRows settings stA1 rs = .ok stA := by
        simpa [runRows, hstep] using h
      obtain ⟨nm, source, fromRaw, toRaw, src, fs1, ev1, hg, hf, hfr, hto,
        hbind, hcc, hstA1⟩ :=
        step_ok_inv settings ⟨ps, ed, fsA, evA⟩ r stA1 hstep
      obtain ⟨p, hp, _⟩ :=
        create_clip_some_inv settings src _ _ _ _ fs1 ev1 hcc
      have hrp : rowPath r = some p := by
        unfold rowPath
        rw [hg, hfr, hto]
        exact hp
      have hpB : p ∈ fsB := hmem r (List.mem_cons_self r rs) p hrp
      have hedB : (if source ≠ "" ∧ ps ≠ some source then some source else ed)
          = some src := by
        have hb := hbind
        rw [bindPhase_editor] at hb
        exact hb
      have hccB : create_clip settings src fsB (pyStrip fromRaw)
          (pyStrip toRaw) (pyStrip nm) = some (fsB, [Event.skip src p]) := by
        unfold create_clip
        simp only [hp]
        rw [if_pos hpB]
      have hstepB : step settings ⟨ps, ed, fsB, evB⟩ r =
          .ok ⟨if source ≠ "" ∧ ps ≠ some source then some source else ps,
               some src, fsB,
               (evB ++ bindDelta ps ed source) ++ [Event.skip src p]⟩ := by
        rw [step_expand settings ps ed fsB evB r nm source fromRaw toRaw
          hg hf hfr hto]
        simp only [hedB, hccB]
      rw [hstA1, bindPhase_prev, bindPhase_events] at h2
      obtain ⟨d1, hrun2, hd1⟩ := ih
        (if source ≠ "" ∧ ps ≠ some source then some source else ps)
        (some src) fs1
        (evA ++ bindDelta ps ed source ++ ev1) stA fsB
        ((evB ++ bindDelta ps ed source) ++ [Event.skip src p]) h2
        (fun row hr q hq => hmem row (List.mem_cons_of_mem r hr) q hq)
      refine ⟨(bindDelta ps ed source ++ [Event.skip src p]) ++ d1, ?_, ?_⟩
      · have : runRows settings ⟨ps, ed, fsB, evB⟩ (r :: rs) =
            runRows settings
              ⟨if source ≠ "" ∧ ps ≠ some source then some source else ps,
               some src, fsB,
               (evB ++ bindDelta ps ed source) ++ [Event.skip src p]⟩ rs := by
          simp [runRows, hstepB]
        rw [this, hrun2]
        simp [List.append_assoc]
      · rw [encodeCount_append, encodeCount_append, encodeCount_bindDelta, hd1]
        rfl

/-- Starting from a filesystem holding every row's output path, the
whole driver re-run completes successfully with zero encode events. -/
theorem edit_video_rerun (settings : Settings) (rows : List Row)
    (fs0 : List String) (stR : DriverState)
    (hR : runRows settings (initState fs0) rows = .ok stR)
    (hmem : ∀ row ∈ rows, ∀ p, rowPath row = some p → p ∈ stR.fs) :
    ∃ st2, edit_video settings rows stR.fs = .ok st2 ∧
      encodeCount st2.events = 0 := by
  obtain ⟨d, hrun2, hd⟩ :=
    runRows_rerun settings rows none none fs0 [] stR stR.fs [] hR hmem
  have hd' : encodeCount ([] ++ d) = 0 := by simpa using hd
  unfold edit_video initState
  rw [hrun2]
  cases hed : stR.editor with
  | none =>
    refine ⟨⟨stR.prev_source, stR.editor, stR.fs, [] ++ d⟩, ?_, hd'⟩
    simp [hed]
  | some srcR =>
    refine ⟨⟨stR.prev_source, none, stR.fs, ([] ++ d) ++ [Event.closeSource]⟩,
      ?_, ?_⟩
    · simp [hed]
    · rw [encodeCount_append, hd']
      rfl

/-- C4: (i) when the computed output path already exists, `create_clip`
only reports the skip: no directory creation, no engine write, and the
filesystem is unchanged; (ii) re-running a whole successful batch on the
filesystem it produced succeeds (exit 0) with zero encode events. -/
theorem C4_skip_and_idempotence :
    (∀ (settings : Settings) (src : String) (fs : List String)
        (start_time end_time out p : String),
      clip_path out start_time end_time = some p → p ∈ fs →
      create_clip settings src fs start_time end_time out =
        some (fs, [Event.skip src p])) ∧
    (∀ (settings : Settings) (rows : List Row) (fs0 : List String)
        (st1 : DriverState),
      edit_video settings rows fs0 = .ok st1 →
      ∃ st2, edit_video settings rows st1.fs = .ok st2 ∧
        encodeCount st2.events = 0) := by
  constructor
  · intro settings src fs start_time end_time out p hp hmem
    unfold create_clip
    simp only [hp]
    rw [if_pos hmem]
  · intro settings rows fs0 st1 hrun
    unfold edit_video at hrun
    cases hR : runRows settings (initState fs0) rows with
    | error e =>
      rw [hR] at hrun
      exact Except.noConfusion hrun
    | ok stR =>
      rw [hR] at hrun
      obtain ⟨_, hrec⟩ := runRows_records settings rows (initState fs0) stR hR
      have hmem : ∀ row ∈ rows, ∀ p, rowPath row = some p → p ∈ stR.fs := by
        intro row hr p hp
        obtain ⟨q, hq, hqmem⟩ := hrec row hr
        rw [hp] at hq
        injection hq with he
        rw [he]
        exact hqmem
      replace hrun : (match stR.editor with
          | some _ => Except.ok
              (⟨stR.prev_source, none, stR.fs,
                stR.events ++ [Event.closeSource]⟩ : DriverState)
          | none => Except.ok stR) = Except.ok st1 := hrun
      have hfs : st1.fs = stR.fs := by
        cases hed : stR.editor <;> rw [hed] at hrun <;>
          injection hrun with h' <;> rw [← h']
      rw [hfs]
      exact edit_video_rerun settings rows fs0 stR hR hmem

/-- C4 witness: the theorem's part (ii) applied to a one-row batch run
from an empty filesystem; the re-run on the produced filesystem encodes
nothing. -/
theorem C4_skip_and_idempotence_witness :
    ∃ st2, edit_video settings0 [rowGame1]
        (⟨some "game1.mp4", none,
          ["game1-Intro/game1-Intro-Good_000105-000210.mp4"],
          [Event.openSource "game1.mp4",
           Event.mkdirs "game1.mp4" "game1-Intro",
           Event.encode "game1.mp4"
             "game1-Intro/game1-Intro-Good_000105-000210.mp4"
             2 30 "libx264" "fast" "30",
           Event.closeSource]⟩ : DriverState).fs = .ok st2 ∧
      encodeCount st2.events = 0 :=
  C4_skip_and_idempotence.2 settings0 [rowGame1] []
    ⟨some "game1.mp4", none,
     ["game1-Intro/game1-Intro-Good_000105-000210.mp4"],
     [Event.openSource "game1.mp4",
      Event.mkdirs "game1.mp4" "game1-Intro",
      Event.encode "game1.mp4"
        "game1-Intro/game1-Intro-Good_000105-000210.mp4"
        2 30 "libx264" "fast" "30",
      Event.closeSource]⟩
    (by decide)

/-! Well-formedness of the open/close discipline in a trace. -/

/-- Holds on events that neither open nor close a source. -/
def isNeutral : Event → Bool
  | .openSource _ => false
  | .closeSource => false
  | _ => true

/-- Scan of the binding state along a trace: `some b` is the current
bound flag, `none` marks a violation — an open while bound (a second
simultaneous extractor) or a close while unbound. -/
def scanB : Option Bool → List Event → Option Bool
  | none, _ => none
  | some b, [] => some b
  | some b, e :: rest =>
    match e with
    | .openSource _ => if b then none else scanB (some true) rest
    | .closeSource => if b then scanB (some false) rest else none
    | _ => scanB (some b) rest

/-- Predicate `pairOk a b` fails only when `b` opens a source and `a` is not the
release that must immediately precede it. -/
def pairOk : Event → Event → Bool
  | a, .openSource _ =>
    match a with
    | .closeSource => true
    | _ => false
  | _, _ => true

/-- Adjacency discipline of a trace: every open event with a predecessor
is immediately preceded by a close event. -/
def adjOk : List Event → Bool
  | [] => true
  | [_] => true
  | a :: b :: rest => pairOk a b && adjOk (b :: rest)

theorem scanB_append (l m : List Event) (s : Option Bool) :
    scanB s (l ++ m) = scanB (scanB s l) m := by
  induction l generalizing s with
  | nil => cases s <;> rfl
  | cons e es ih =>
    cases s with
    | none => simp [scanB]
    | some b => cases e <;> cases b <;> simp [scanB, ih]

theorem scanB_neutral (l : List Event) (h : ∀ e ∈ l, isNeutral e = true)
    (b : Bool) : scanB (some b) l = some b := by
  induction l with
  | nil => rfl
  | cons e es ih =>
    have he := h e (List.mem_cons_self e es)
    have hes : ∀ x ∈ es, isNeutral x = true :=
      fun x hx => h x (List.mem_cons_of_mem e hx)
    cases e with
    | openSource s => simp [isNeutral] at he
    | closeSource => simp [isNeutral] at he
    | skip s p => simpa [scanB] using ih hes
    | mkdirs s d => simpa [scanB] using ih hes
    | encode s p t f v c q => simpa [scanB] using ih hes

theorem pairOk_of_not_open (a b : Event)
    (h : ∀ s, b ≠ Event.openSource s) : pairOk a b = true := by
  cases b with
  | openSource s => exact absurd rfl (h s)
  | closeSource => rfl
  | skip s p => rfl
  | mkdirs s d => rfl
  | encode s p t f v c q => rfl

theorem adjOk_append : ∀ l m : List Event, adjOk l = true → adjOk m = true →
    (∀ a b, l.getLast? = some a → m.head? = some b → pairOk a b = true) →
    adjOk (l ++ m) = true := by
  intro l
  induction l with
  | nil =>
    intro m _ hm _
    simpa using hm
  | cons x xs ih =>
    intro m hl hm hb
    cases xs with
    | nil =>
      cases m with
      | nil => rfl
      | cons y ys =>
        have hxy : pairOk x y = true := hb x y rfl rfl
        have : adjOk (x :: y :: ys) = true := by
          simp [adjOk, hxy, hm]
        simpa using this
    | cons x2 xs2 =>
      have hl' : pairOk x x2 = true ∧ adjOk (x2 :: xs2) = true := by
        simpa [adjOk, Bool.and_eq_true] using hl
      have hb2 : ∀ a b, (x2 :: xs2).getLast? = some a → m.head? = some b →
          pairOk a b = true := by
        intro a b ha hbb
        refine hb a b ?_ hbb
        rw [List.getLast?_cons_cons]
        exact ha
      have hrest : adjOk ((x2 :: xs2) ++ m) = true := ih m hl'.2 hm hb2
      show adjOk (x :: x2 :: (xs2 ++ m)) = true
      simp [adjOk, hl'.1]
      simpa using hrest

/-- One successful loop iteration preserves the open/close discipline of
the trace, with the scan state tracking the bound editor. -/
theorem step_inv6 (settings : Settings) (st : DriverState) (row : Row)
    (st' : DriverState) (h : step settings st row = .ok st')
    (hscan : scanB (some false) st.events = some st.editor.isSome)
    (hadj : adjOk st.events = true)
    (hempty : st.editor = none → st.events = []) :
    scanB (some false) st'.events = some st'.editor.isSome ∧
    adjOk st'.events = true ∧
    (st'.editor = none → st'.events = []) := by
  obtain ⟨nm, source, fromRaw, toRaw, src, fs', ev', hg, hf, hfr, hto, hbind,
    hcc, hst⟩ := step_ok_inv settings st row st' h
  obtain ⟨p, hp, hshape⟩ :=
    create_clip_some_inv settings src st.fs _ _ _ fs' ev' hcc
  have hne : ∀ e ∈ ev', isNeutral e = true := by
    rcases hshape with ⟨_, _, rfl⟩ | ⟨_, _, rfl⟩
    · intro e he
      rw [List.mem_singleton] at he
      subst he
      rfl
    · intro e he
      rcases List.mem_cons.mp he with rfl | he2
      · rfl
      · rcases List.mem_cons.mp he2 with rfl | he3
        · rfl
        · cases he3
  have hadjE : ∀ s0, adjOk (Event.openSource s0 :: ev') = true := by
    rcases hshape with ⟨_, _, rfl⟩ | ⟨_, _, rfl⟩ <;> intro s0 <;> rfl
  have hadjO : adjOk ev' = true := by
    rcases hshape with ⟨_, _, rfl⟩ | ⟨_, _, rfl⟩ <;> rfl
  have hheadO : ∀ b, ev'.head? = some b → ∀ s0, b ≠ Event.openSource s0 := by
    rcases hshape with ⟨_, _, rfl⟩ | ⟨_, _, rfl⟩ <;>
      (intro b hb s0 hcon
       injection hb with hb'
       rw [← hb'] at hcon
       exact Event.noConfusion hcon)
  subst hst
  simp only [bindPhase_events, bindPhase_prev, bindPhase_editor]
  refine ⟨?_, ?_, fun hno => Option.noConfusion hno⟩
  · -- the scan ends bound
    by_cases hcnd : source ≠ "" ∧ st.prev_source ≠ some source
    · cases hedst : st.editor with
      | none =>
        have hbd : bindDelta st.prev_source none source =
            [Event.openSource source] := by
          unfold bindDelta
          rw [if_pos hcnd]
        rw [hbd, hempty hedst]
        simp [scanB, scanB_neutral ev' hne]
      | some prev =>
        have hbd : bindDelta st.prev_source (some prev) source =
            [Event.closeSource, Event.openSource source] := by
          unfold bindDelta
          rw [if_pos hcnd]
        rw [hedst] at hscan
        rw [hbd, scanB_append, scanB_append, hscan]
        simp [scanB, scanB_neutral ev' hne]
    · have hbd : bindDelta st.prev_source st.editor source = [] := by
        unfold bindDelta
        rw [if_neg hcnd]
      have hedst : st.editor = some src := by
        have hb := hbind
        rw [bindPhase_editor, if_neg hcnd] at hb
        exact hb
      rw [hedst] at hscan
      rw [hbd, List.append_nil, scanB_append, hscan]
      simp [scanB_neutral ev' hne]
  · -- the adjacency discipline holds
    by_cases hcnd : source ≠ "" ∧ st.prev_source ≠ some source
    · cases hedst : st.editor with
      | none =>
        have hbd : bindDelta st.prev_source none source =
            [Event.openSource source] := by
          unfold bindDelta
          rw [if_pos hcnd]
        rw [hbd, hempty hedst]
        simpa using hadjE source
      | some prev =>
        have hbd : bindDelta st.prev_source (some prev) source =
            [Event.closeSource, Event.openSource source] := by
          unfold bindDelta
          rw [if_pos hcnd]
        rw [hbd]
        have h1 : adjOk (st.events ++ [Event.closeSource]) = true :=
          adjOk_append st.events [Event.closeSource] hadj rfl
            (fun a b _ hbb => by
              injection hbb with hb'
              rw [← hb']
              exact pairOk_of_not_open a _ (fun s0 h0 => Event.noConfusion h0))
        have h2 : adjOk ((st.events ++ [Event.closeSource]) ++
            (Event.openSource source :: ev')) = true :=
          adjOk_append _ _ h1 (hadjE source)
            (fun a b ha hbb => by
              rw [List.getLast?_concat] at ha
              injection ha with ha'
              injection hbb with hb'
              rw [← ha', ← hb']
              rfl)
        simpa [List.append_assoc] using h2
    · have hbd : bindDelta st.prev_source st.editor source = [] := by
        unfold bindDelta
        rw [if_neg hcnd]
      rw [hbd, List.append_nil]
      exact adjOk_append st.events ev' hadj hadjO
        (fun a b _ hbb => pairOk_of_not_open a b (hheadO b hbb))

/-- The loop preserves the open/close discipline of the trace. -/
theorem runRows_inv6 (settings : Settings) (rows : List Row) :
    ∀ st st', runRows settings st rows = .ok st' →
      scanB (some false) st.events = some st.editor.isSome →
      adjOk st.events = true → (st.editor = none → st.events = []) →
      scanB (some false) st'.events = some st'.editor.isSome ∧
      adjOk st'.events = true ∧ (st'.editor = none → st'.events = []) := by
  induction rows with
  | nil =>
    intro st st' h h1 h2 h3
    simp [runRows] at h
    subst h
    exact ⟨h1, h2, h3⟩
  | cons r rs ih =>
    intro st st' h h1 h2 h3
    cases hstep : step settings st r with
    | error e => simp [runRows, hstep] at h
    | ok st1 =>
      have h2' : runRows settings st1 rs = .ok st' := by
        simpa [runRows, hstep] using h
      obtain ⟨i1, i2, i3⟩ := step_inv6 settings st r st1 hstep h1 h2 h3
      exact ih st1 st' h2' i1 i2 i3

/-- C6: in every successful run the trace observes the single-extractor
discipline: the scan accepts it (never an open while bound — so at most
one extractor is open at any point — never a close while unbound) and
ends unbound (the final bound extractor, if any, is released before the
driver returns), and every open event with a predecessor is immediately
preceded by a close event (a switch from source A to source B releases A
right before binding B). -/
theorem C6_single_extractor_discipline (settings : Settings)
    (rows : List Row) (fs0 : List String) (st : DriverState)
    (h : edit_video settings rows fs0 = .ok st) :
    scanB (some false) st.events = some false ∧ adjOk st.events = true := by
  unfold edit_video at h
  cases hR : runRows settings (initState fs0) rows with
  | error e =>
    rw [hR] at h
    exact Except.noConfusion h
  | ok stR =>
    rw [hR] at h
    obtain ⟨hscan, hadj, _⟩ :=
      runRows_inv6 settings rows (initState fs0) stR hR rfl rfl (fun _ => rfl)
    replace h : (match stR.editor with
        | some _ => Except.ok
            (⟨stR.prev_source, none, stR.fs,
              stR.events ++ [Event.closeSource]⟩ : DriverState)
        | none => Except.ok stR) = Except.ok st := h
    cases hed : stR.editor with
    | none =>
      rw [hed] at h
      injection h with h'
      rw [← h']
      rw [hed] at hscan
      exact ⟨hscan, hadj⟩
    | some srcR =>
      rw [hed] at h
      injection h with h'
      rw [← h']
      constructor
      · show scanB (some false) (stR.events ++ [Event.closeSource]) = some false
        rw [scanB_append, hscan, hed]
        rfl
      · show adjOk (stR.events ++ [Event.closeSource]) = true
        exact adjOk_append stR.events [Event.closeSource] hadj rfl
          (fun a b _ hbb => by
            injection hbb with hb'
            rw [← hb']
            exact pairOk_of_not_open a _ (fun s0 h0 => Event.noConfusion h0))

/-- C6 witness: the theorem applied to the grouping scenario's run; its
trace passes the scan ending unbound and the adjacency check. -/
theorem C6_single_extractor_discipline_witness :
    scanB (some false) traceAAEB = some false ∧ adjOk traceAAEB = true := by
  have h := C6_single_extractor_discipline settings0 [rowA1, rowA2, rowE, rowB]
    []
    ⟨some "b.mp4", none,
     ["b-n4/b-n4-p_000705-000810.mp4", "-n3/-n3-p_000505-000610.mp4",
      "a-n2/a-n2-p_000305-000410.mp4", "a-n/a-n-p_000105-000210.mp4"],
     traceAAEB⟩
    (by decide)
  exact h

/-- C5 witness: part (ii) of the theorem applied to the empty-source
fixture row processed while bound to `a.mp4`: the emitted events are all
served by `a.mp4`. -/
theorem C5_grouping_rule_witness :
    ∃ d, (⟨some "a.mp4", some "a.mp4", ["-n3/-n3-p_000505-000610.mp4"],
           [Event.mkdirs "a.mp4" "-n3",
            Event.encode "a.mp4" "-n3/-n3-p_000505-000610.mp4"
              2 30 "libx264" "fast" "30"]⟩ : DriverState).events = [] ++ d ∧
         ∀ e ∈ d, eventSrc e = some "a.mp4" :=
  (C5_grouping_rule.2.1 settings0 (some "a.mp4") "a.mp4" [] [] rowE
    "-n3/-n3-p" "5:05" "6:10" (by decide) (by decide) (by decide) (by decide)
    ⟨some "a.mp4", some "a.mp4", ["-n3/-n3-p_000505-000610.mp4"],
     [Event.mkdirs "a.mp4" "-n3",
      Event.encode "a.mp4" "-n3/-n3-p_000505-000610.mp4"
        2 30 "libx264" "fast" "30"]⟩
    (by decide)).2.2

